import Mathlib

/-!
Verification of the StockPlay trading backend core
(`stock_api/trading_service.py`, `stock_api/trading_routes.py`).

Money amounts and prices are modelled as exact rationals (`ℚ`): the Python
code converts every amount through `Decimal(str(x))` and back to `float`,
and the spec's claims are stated up to a rounding epsilon, which exact
rational arithmetic satisfies trivially.  Quantities are integers (`ℤ`),
matching the `int` quantity fields.  The model is single-user,
single-symbol: every claim under verification concerns one user's wallet
and one holding row.
-/

namespace StockPlay

/-- A user wallet row (`user_wallets`): `quantz_balance`, `total_invested`,
`total_returns`. -/
structure Wallet where
  balance  : ℚ
  invested : ℚ
  returns  : ℚ
  deriving Repr, DecidableEq

/-- A `stock_holdings` row for one (user, symbol):
`quantity, average_price, total_cost, current_price, current_value`. -/
structure Holding where
  qty          : ℤ
  avg          : ℚ
  cost         : ℚ
  currentPrice : ℚ
  currentValue : ℚ
  deriving Repr, DecidableEq

/-- Transaction type tag of a `transactions` row. -/
inductive TxType where
  | buy
  | sell
  deriving Repr, DecidableEq

/-- A `transactions` row: type, quantity, `price_per_share`, `total_amount`,
`fees`, `net_amount`, and (for sells) the realized P and L recorded in the
`notes` column. -/
structure Tx where
  type     : TxType
  qty      : ℤ
  price    : ℚ
  total    : ℚ
  fees     : ℚ
  net      : ℚ
  notes    : Option ℚ
  deriving Repr, DecidableEq

/-- The ledger state touched by one user's trades on one symbol: the wallet
row (`none` = missing), the holding row (`none` = no position), and the
append-only transaction log. -/
structure LedgerState where
  wallet  : Option Wallet
  holding : Option Holding
  txs     : List Tx
  deriving Repr, DecidableEq

/-- Outcome of a trade request, one constructor per distinct return path of
`buy_stock` / `sell_stock`. -/
inductive TradeResult where
  | ok
  | priceUnavailable     -- "Unable to fetch current stock price"
  | noWallet             -- "User wallet not found" / sell-side wallet crash
  | insufficientBalance  -- "Insufficient balance. ..."
  | noPosition           -- "You don't own any shares of this stock"
  | insufficientShares   -- "Insufficient shares. You own ... shares"
  deriving Repr, DecidableEq

/-- Price resolution shared by `buy_stock` and `sell_stock`
(trading_service.py lines 34-38 and 168-172): a caller-supplied price is
used unchanged; otherwise the oracle is consulted and its answer rejected
when falsy (`if not current_price`), i.e. absent or zero. -/
def resolveTradePrice (supplied : Option ℚ) (oracle : Option ℚ) : Option ℚ :=
  match supplied with
  | some p => some p
  | none =>
    match oracle with
    | none => none
    | some p => if p = 0 then none else some p

/-- `TradingService.buy_stock` (trading_service.py lines 28-160).
`oracle` is the answer `get_real_time_price` would give when consulted. -/
def buyStock (s : LedgerState) (quantity : ℤ) (supplied : Option ℚ)
    (oracle : Option ℚ) : TradeResult × LedgerState :=
  match resolveTradePrice supplied oracle with
  | none => (.priceUnavailable, s)
  | some price =>
    let total_cost := price * quantity
    let fees : ℚ := 0
    let net_amount := total_cost + fees
    match s.wallet with
    | none => (.noWallet, s)
    | some w =>
      if w.balance < net_amount then (.insufficientBalance, s)
      else
        let tx : Tx := ⟨.buy, quantity, price, total_cost, fees, net_amount, none⟩
        let new_balance := w.balance - net_amount
        let w' : Wallet := ⟨new_balance, w.invested + total_cost, w.returns⟩
        let h' : Holding :=
          match s.holding with
          | some h =>
            let new_total_qty := h.qty + quantity
            let new_total_cost := h.cost + total_cost
            let new_avg_price := new_total_cost / (new_total_qty : ℚ)
            ⟨new_total_qty, new_avg_price, new_total_cost,
              price, (new_total_qty : ℚ) * price⟩
          | none => ⟨quantity, price, total_cost, price, total_cost⟩
        (.ok, ⟨some w', some h', s.txs ++ [tx]⟩)

/-- `TradingService.sell_stock` (trading_service.py lines 162-292). -/
def sellStock (s : LedgerState) (quantity : ℤ) (supplied : Option ℚ)
    (oracle : Option ℚ) : TradeResult × LedgerState :=
  match resolveTradePrice supplied oracle with
  | none => (.priceUnavailable, s)
  | some price =>
    match s.holding with
    | none => (.noPosition, s)
    | some h =>
      if h.qty < quantity then (.insufficientShares, s)
      else
        let total_proceeds := price * quantity
        let fees : ℚ := 0
        let net_proceeds := total_proceeds - fees
        let realized := (price - h.avg) * quantity
        match s.wallet with
        | none => (.noWallet, s)   -- wallet read fails: transaction rolls back
        | some w =>
          let tx : Tx := ⟨.sell, quantity, price, total_proceeds, fees,
            net_proceeds, some realized⟩
          let w' : Wallet := ⟨w.balance + net_proceeds, w.invested,
            w.returns + realized⟩
          let h' : Option Holding :=
            if h.qty = quantity then none
            else
              let new_qty := h.qty - quantity
              some ⟨new_qty, h.avg, h.cost - h.avg * quantity,
                price, (new_qty : ℚ) * price⟩
          (.ok, ⟨some w', h', s.txs ++ [tx]⟩)

/-! ## Price oracle (`TradingService.get_real_time_price`, lines 294-417)

Each external source attempt is modelled by its outcome: `none` when the
attempt raised, timed out, returned non-200, or the expected field was
missing; `some v` when it produced the numeric value `v`.  The code accepts
an outcome with `if price and price > 0` — i.e. a present, nonzero value
strictly greater than zero — and returns it immediately. -/

/-- The sequential try-each-source loop: return the first outcome that is a
present value strictly greater than zero, else `none`. -/
def firstAccepted : List (Option ℚ) → Option ℚ
  | [] => none
  | o :: rest =>
    match o with
    | some v => if 0 < v then some v else firstAccepted rest
    | none => firstAccepted rest

/-- An outcome the code's `if price and price > 0` test accepts. -/
def isAccepted (o : Option ℚ) : Prop := ∃ v, o = some v ∧ 0 < v

/-- Outcomes of the six price sources of `get_real_time_price`, in the
code's fixed order.  `yfInfoFields` is the source-4 candidate list
(`currentPrice, regularMarketPrice, previousClose, open, bid, ask`),
scanned by the same accept test. -/
structure PriceSources where
  finnhub      : Option ℚ
  alphaVantage : Option ℚ
  yfFastInfo   : Option ℚ
  yfInfoFields : List (Option ℚ)
  yfHistory    : Option ℚ
  yahooChart   : Option ℚ

/-- The attempts of `get_real_time_price` in program order. -/
def sourceChain (r : PriceSources) : List (Option ℚ) :=
  r.finnhub :: r.alphaVantage :: r.yfFastInfo ::
    (r.yfInfoFields ++ [r.yfHistory, r.yahooChart])

/-- `TradingService.get_real_time_price`: first accepted source value,
`none` when every source is exhausted. -/
def getRealTimePrice (r : PriceSources) : Option ℚ :=
  firstAccepted (sourceChain r)

/-! ## Portfolio valuation price resolution (`get_portfolio`,
trading_routes.py lines 292-345)

For one holding: try the oracle; on failure fall back to the stored cached
`current_price`, then a manual yfinance fetch, then a synthetic price
`average_price * (1 + delta)` with `delta = random.uniform(-0.05, 0.05)`
(or `random.uniform(-0.02, 0.02)` when the manual fetch raised).  The
resolved value — whatever branch produced it — is then written to
`stock_holdings.current_price` (lines 337-342). -/

/-- Which branch of the fallback chain produced the valuation price.  In
the code this provenance exists only in log messages. -/
inductive PriceProvenance where
  | oracle       -- `get_real_time_price` succeeded
  | storedCache  -- stored `current_price` reused
  | manualFetch  -- direct yfinance info fetch
  | synthetic5   -- simulated walk, `random.uniform(-0.05, 0.05)`
  | synthetic2   -- simulated walk after manual-fetch exception, ±2%
  deriving Repr, DecidableEq

/-- Inputs to the per-holding price fallback of `get_portfolio`:
the oracle answer; the stored cached price (`none` when the row value is
NULL or zero, per the code's truthiness conversion); the manual yfinance
fetch (`none` = the fetch raised; `some none` = fetch succeeded but all
three candidate fields were falsy; `some (some m)` = first truthy field
`m`); and the two drawn random deltas. -/
structure PortfolioPriceInputs where
  oraclePrice : Option ℚ
  storedPrice : Option ℚ
  manualInfo  : Option (Option ℚ)
  delta5      : ℚ
  delta2      : ℚ

/-- The manual-fetch-or-synthetic branch (lines 310-331). -/
def manualOrSynthetic (avg : ℚ) (inp : PortfolioPriceInputs) :
    ℚ × PriceProvenance :=
  match inp.manualInfo with
  | none => (avg * (1 + inp.delta2), .synthetic2)
  | some m? =>
    match m? with
    | some m =>
      if 0 < m ∧ 1/100 < |m - avg| then (m, .manualFetch)
      else (avg * (1 + inp.delta5), .synthetic5)
    | none => (avg * (1 + inp.delta5), .synthetic5)

/-- The whole per-holding price resolution of `get_portfolio`
(lines 292-333), returning the valuation price and its provenance. -/
def portfolioResolvePrice (avg : ℚ) (inp : PortfolioPriceInputs) :
    ℚ × PriceProvenance :=
  match inp.oraclePrice with
  | some p =>
    if p ≤ 0 then
      match inp.storedPrice with
      | some sp =>
        if sp ≠ 0 ∧ 1/100 < |sp - avg| ∧ 0 < sp then (sp, .storedCache)
        else manualOrSynthetic avg inp
      | none => manualOrSynthetic avg inp
    else (p, .oracle)
  | none =>
    match inp.storedPrice with
    | some sp =>
      if sp ≠ 0 ∧ 1/100 < |sp - avg| ∧ 0 < sp then (sp, .storedCache)
      else manualOrSynthetic avg inp
    | none => manualOrSynthetic avg inp

/-- The value written back to `stock_holdings.current_price` (lines
337-342): unconditionally the resolved `real_time_price`, with no flag
distinguishing synthetic from authoritative values. -/
def portfolioWritebackPrice (avg : ℚ) (inp : PortfolioPriceInputs) : ℚ :=
  (portfolioResolvePrice avg inp).1

/-! ## days_held / years_held / CAGR exponent (`get_portfolio`,
trading_routes.py lines 367-372) -/

/-- `days_held = (datetime.now() - last_updated).days if last_updated
else 1`: the argument is the whole-day difference when `last_updated` is
present, and the result defaults to 1 when it is missing. -/
def daysHeld : Option ℤ → ℤ
  | some d => d
  | none => 1

/-- `years_held = max(days_held / 365.25, 1/365.25)` (365.25 = 1461/4). -/
def yearsHeld (dh : ℤ) : ℚ :=
  max ((dh : ℚ) / (1461/4)) (4/1461)

/-- The exponent `1 / years_held` used in
`cagr = (pow(current_market_value / total_cost, 1 / years_held) - 1) * 100`. -/
def cagrExponent (dh : ℤ) : ℚ := 1 / yearsHeld dh

/-! ## Sequences of trades (for the cost-basis invariant)

Every committed trade executes, after price resolution, the same ledger
update whether the price was caller-supplied or oracle-fetched; an
operation here carries the resolved price. -/

/-- One trade request on the single symbol, with its resolved price. -/
inductive TradeOp where
  | buy (qty : ℤ) (price : ℚ)
  | sell (qty : ℤ) (price : ℚ)
  deriving Repr, DecidableEq

/-- The quantity of a trade request. -/
def TradeOp.quantity : TradeOp → ℤ
  | .buy q _ => q
  | .sell q _ => q

/-- Apply one trade request to the ledger (rejections leave it as is). -/
def applyOp (s : LedgerState) (op : TradeOp) : LedgerState :=
  match op with
  | .buy q p => (buyStock s q (some p) none).2
  | .sell q p => (sellStock s q (some p) none).2

/-- Run a sequence of trade requests. -/
def runOps (s : LedgerState) (ops : List TradeOp) : LedgerState :=
  ops.foldl applyOp s

/-- The holding-row consistency invariant: a present holding has a
positive quantity and `total_cost = average_price * quantity`. -/
def CostBasisInv (s : LedgerState) : Prop :=
  ∀ h, s.holding = some h → 0 < h.qty ∧ h.cost = h.avg * (h.qty : ℚ)

/-! ## Concurrent buys (`buy_stock`, lines 46-88)

`buy_stock` reads the wallet and performs the affordability check on one
connection (lines 46-57) *before* opening the write transaction, then
writes the absolute balance `current_balance - net_amount` computed from
that earlier snapshot (lines 83-88).  A buy request is therefore two
phases over shared wallet state: a check phase that snapshots the balance
and decides, and a commit phase that writes `snapshot - cost`, adds the
cost to `total_invested`, and appends a transaction row.  Nothing locks
the wallet row between the two phases. -/

/-- Shared wallet state during two in-flight buy requests: cash balance,
cumulative `total_invested`, number of committed transaction rows, and
each request's pending balance snapshot (`none` until its check phase
passes, and again after it commits). -/
structure ConcState where
  cash      : ℚ
  invested  : ℚ
  committed : ℕ
  pend1     : Option ℚ
  pend2     : Option ℚ
  deriving Repr, DecidableEq

/-- A scheduling step: one phase of one of the two buy requests. -/
inductive BuyStep where
  | check1
  | check2
  | commit1
  | commit2
  deriving Repr, DecidableEq

/-- Execute one phase.  `c1`, `c2` are the two requests' costs
(`price * quantity`).  A check phase snapshots the current balance if
affordable, else rejects (the request never commits); a commit phase
writes the absolute balance computed from its snapshot. -/
def concStep (c1 c2 : ℚ) (s : ConcState) : BuyStep → ConcState
  | .check1 =>
    if s.cash < c1 then { s with pend1 := none }
    else { s with pend1 := some s.cash }
  | .check2 =>
    if s.cash < c2 then { s with pend2 := none }
    else { s with pend2 := some s.cash }
  | .commit1 =>
    match s.pend1 with
    | none => s
    | some snap =>
      ⟨snap - c1, s.invested + c1, s.committed + 1, none, s.pend2⟩
  | .commit2 =>
    match s.pend2 with
    | none => s
    | some snap =>
      ⟨snap - c2, s.invested + c2, s.committed + 1, s.pend1, none⟩

/-- Run an interleaving of the two requests' phases. -/
def concRun (c1 c2 : ℚ) (s : ConcState) (sched : List BuyStep) : ConcState :=
  sched.foldl (concStep c1 c2) s

/-! ## Claims -/

/-- C1: a buy of quantity `q` at price `p` on an already-held symbol
(old quantity `oq`, old total cost `oc`) yields a holding with quantity
`oq + q`, total cost `oc + p*q`, and average price
`(oc + p*q) / (oq + q)`; a first buy sets `average_price = p`; buying
10 @ 100 then 10 @ 200 yields average 150, quantity 20, total cost 3000. -/
theorem buy_weighted_average :
    (∀ (s : LedgerState) (w : Wallet) (h : Holding) (q : ℤ) (p : ℚ)
      (o : Option ℚ), s.wallet = some w → s.holding = some h →
      ¬ w.balance < p * q →
      (buyStock s q (some p) o).1 = .ok ∧
      ∃ h', ((buyStock s q (some p) o).2).holding = some h' ∧
        h'.qty = h.qty + q ∧ h'.cost = h.cost + p * q ∧
        h'.avg = (h.cost + p * q) / ((h.qty + q : ℤ) : ℚ)) ∧
    (∀ (s : LedgerState) (w : Wallet) (q : ℤ) (p : ℚ) (o : Option ℚ),
      s.wallet = some w → s.holding = none → ¬ w.balance < p * q →
      ∃ h', ((buyStock s q (some p) o).2).holding = some h' ∧
        h'.qty = q ∧ h'.cost = p * q ∧ h'.avg = p) ∧
    (∃ h', ((buyStock
        (buyStock ⟨some ⟨10000, 0, 0⟩, none, []⟩ 10 (some 100) none).2
        10 (some 200) none).2).holding = some h' ∧
      h'.avg = 150 ∧ h'.qty = 20 ∧ h'.cost = 3000) := by
  refine ⟨?_, ?_, ?_⟩
  · intro s w h q p o hw hh hbal
    have hbal' : ¬ w.balance < p * (q : ℚ) + 0 := by rwa [add_zero]
    rcases s with ⟨ws, hs, txs⟩
    cases hw; cases hh
    simp only [buyStock, resolveTradePrice, if_neg hbal']
    exact ⟨by trivial, ⟨_, rfl, rfl, rfl, rfl⟩⟩
  · intro s w q p o hw hh hbal
    have hbal' : ¬ w.balance < p * (q : ℚ) + 0 := by rwa [add_zero]
    rcases s with ⟨ws, hs, txs⟩
    cases hw; cases hh
    simp only [buyStock, resolveTradePrice, if_neg hbal']
    exact ⟨_, rfl, rfl, rfl, rfl⟩
  · refine ⟨⟨20, 150, 3000, 200, 4000⟩, ?_, rfl, rfl, rfl⟩
    norm_num [buyStock, resolveTradePrice]

/-- Witness for C1: a concrete re-buy (holding 10 @ 100, buy 10 @ 200 with
balance 10000) hits the weighted-average branch. -/
theorem buy_weighted_average_witness :
    (buyStock ⟨some ⟨10000, 0, 0⟩, some ⟨10, 100, 1000, 100, 1000⟩, []⟩
      10 (some 200) none).1 = .ok ∧
    ∃ h', ((buyStock ⟨some ⟨10000, 0, 0⟩, some ⟨10, 100, 1000, 100, 1000⟩, []⟩
        10 (some 200) none).2).holding = some h' ∧
      h'.qty = 10 + 10 ∧ h'.cost = 1000 + 200 * 10 ∧
      h'.avg = (1000 + 200 * 10) / (((10 : ℤ) + 10 : ℤ) : ℚ) :=
  buy_weighted_average.1
    ⟨some ⟨10000, 0, 0⟩, some ⟨10, 100, 1000, 100, 1000⟩, []⟩
    ⟨10000, 0, 0⟩ ⟨10, 100, 1000, 100, 1000⟩ 10 200 none rfl rfl (by norm_num)

/-- C2: a partial sell of `q` shares at price `p` from a holding with
average `avg` and quantity `> q` realizes P and L `(p - avg) * q`, adds it
to `wallet.total_returns`, credits the wallet `p*q` (fees zero), decreases
the holding's quantity by `q` and its total cost by `avg * q`, leaves
`average_price` unchanged, and records the realized P and L in the SELL
transaction's notes; concretely, holding 20 @ avg 150, sell 5 @ 180 gives
realized gain 150, remaining quantity 15, total cost 2250, average 150. -/
theorem sell_realized_pnl :
    (∀ (s : LedgerState) (w : Wallet) (h : Holding) (q : ℤ) (p : ℚ)
      (o : Option ℚ), s.wallet = some w → s.holding = some h → q < h.qty →
      (sellStock s q (some p) o).1 = .ok ∧
      ((sellStock s q (some p) o).2).wallet =
        some ⟨w.balance + p * q, w.invested, w.returns + (p - h.avg) * q⟩ ∧
      (∃ h', ((sellStock s q (some p) o).2).holding = some h' ∧
        h'.qty = h.qty - q ∧ h'.cost = h.cost - h.avg * q ∧
        h'.avg = h.avg) ∧
      (∃ t, ((sellStock s q (some p) o).2).txs = s.txs ++ [t] ∧
        t.type = .sell ∧ t.notes = some ((p - h.avg) * q))) ∧
    (sellStock ⟨some ⟨1000, 3000, 0⟩, some ⟨20, 150, 3000, 150, 3000⟩, []⟩
        5 (some 180) none).2 =
      ⟨some ⟨1900, 3000, 150⟩, some ⟨15, 150, 2250, 180, 2700⟩,
        [⟨.sell, 5, 180, 900, 0, 900, some 150⟩]⟩ := by
  constructor
  · intro s w h q p o hw hh hq
    have hlt : ¬ h.qty < q := not_lt.mpr (le_of_lt hq)
    have hne : ¬ h.qty = q := ne_of_gt hq
    rcases s with ⟨ws, hs, txs⟩
    cases hw; cases hh
    simp only [sellStock, resolveTradePrice, if_neg hlt, if_neg hne]
    refine ⟨by trivial, by norm_num, ⟨_, rfl, rfl, rfl, rfl⟩,
      ⟨_, rfl, rfl, rfl⟩⟩
  · norm_num [sellStock, resolveTradePrice]

/-- Witness for C2: a concrete partial sell (holding 20 @ avg 150, sell
5 @ 180) through the general statement. -/
theorem sell_realized_pnl_witness :
    (sellStock ⟨some ⟨1000, 3000, 0⟩, some ⟨20, 150, 3000, 150, 3000⟩, []⟩
      5 (some 180) none).1 = .ok ∧
    ((sellStock ⟨some ⟨1000, 3000, 0⟩, some ⟨20, 150, 3000, 150, 3000⟩, []⟩
        5 (some 180) none).2).wallet =
      some ⟨1000 + 180 * 5, 3000, 0 + (180 - 150) * 5⟩ ∧
    (∃ h', ((sellStock ⟨some ⟨1000, 3000, 0⟩,
        some ⟨20, 150, 3000, 150, 3000⟩, []⟩ 5 (some 180) none).2).holding =
        some h' ∧ h'.qty = 20 - 5 ∧ h'.cost = 3000 - 150 * 5 ∧
        h'.avg = 150) ∧
    (∃ t, ((sellStock ⟨some ⟨1000, 3000, 0⟩,
        some ⟨20, 150, 3000, 150, 3000⟩, []⟩ 5 (some 180) none).2).txs =
        [] ++ [t] ∧ t.type = .sell ∧ t.notes = some ((180 - 150) * 5)) :=
  sell_realized_pnl.1
    ⟨some ⟨1000, 3000, 0⟩, some ⟨20, 150, 3000, 150, 3000⟩, []⟩
    ⟨1000, 3000, 0⟩ ⟨20, 150, 3000, 150, 3000⟩ 5 180 none rfl rfl
    (by norm_num)

/-- One trade request (committed or rejected) preserves the holding
consistency invariant, provided the request's quantity is positive (the
route validators reject non-positive quantities). -/
lemma costBasisInv_applyOp (s : LedgerState) (op : TradeOp)
    (hs : CostBasisInv s) (hq : 0 < op.quantity) :
    CostBasisInv (applyOp s op) := by
  cases op with
  | buy q p =>
    simp only [TradeOp.quantity] at hq
    rcases s with ⟨ws, hold, txs⟩
    dsimp only [applyOp, buyStock, resolveTradePrice]
    cases ws with
    | none => exact hs
    | some w =>
      by_cases hb : w.balance < p * (q : ℚ) + 0
      · simp only [if_pos hb]; exact hs
      · simp only [if_neg hb]
        cases hold with
        | none =>
          intro h' hh'
          simp only [Option.some.injEq] at hh'
          subst hh'
          exact ⟨hq, rfl⟩
        | some h =>
          obtain ⟨hpos, hcost⟩ := hs h rfl
          intro h' hh'
          simp only [Option.some.injEq] at hh'
          subst hh'
          refine ⟨add_pos hpos hq, ?_⟩
          have hne : ((h.qty + q : ℤ) : ℚ) ≠ 0 :=
            Int.cast_ne_zero.mpr (ne_of_gt (add_pos hpos hq))
          exact (div_mul_cancel₀ _ hne).symm
  | sell q p =>
    simp only [TradeOp.quantity] at hq
    rcases s with ⟨ws, hold, txs⟩
    dsimp only [applyOp, sellStock, resolveTradePrice]
    cases hold with
    | none => exact hs
    | some h =>
      obtain ⟨hpos, hcost⟩ := hs h rfl
      by_cases hlt : h.qty < q
      · simp only [if_pos hlt]; exact hs
      · simp only [if_neg hlt]
        cases ws with
        | none => exact hs
        | some w =>
          by_cases heq : h.qty = q
          · simp only [if_pos heq]
            intro h' hh'
            simp at hh'
          · simp only [if_neg heq]
            intro h' hh'
            simp only [Option.some.injEq] at hh'
            subst hh'
            refine ⟨by dsimp only; omega, ?_⟩
            rw [hcost]
            push_cast
            ring
/-- Running any sequence of trade requests from an invariant-satisfying
state keeps the invariant, provided every request's quantity is positive. -/
lemma costBasisInv_runOps (ops : List TradeOp) :
    ∀ s : LedgerState, CostBasisInv s →
      (∀ op ∈ ops, 0 < op.quantity) → CostBasisInv (runOps s ops) := by
  induction ops with
  | nil => intro s hs _; exact hs
  | cons op rest ih =>
    intro s hs hall
    exact ih (applyOp s op)
      (costBasisInv_applyOp s op hs (hall op (List.mem_cons_self op rest)))
      (fun o ho => hall o (List.mem_cons_of_mem op ho))

/-- C3: for any sequence of buys and sells on one symbol (each with
positive quantity, as the route validators enforce), starting from no
position, the holding after the sequence — hence after every prefix, i.e.
after each operation — satisfies
`abs(total_cost - average_price * quantity) < epsilon` for every positive
epsilon; in the exact-rational model the difference is exactly zero. -/
theorem cost_basis_invariant :
    ∀ (ops : List TradeOp) (s : LedgerState), s.holding = none →
      (∀ op ∈ ops, 0 < op.quantity) →
      ∀ ε : ℚ, 0 < ε →
      ∀ h, (runOps s ops).holding = some h →
        |h.cost - h.avg * (h.qty : ℚ)| < ε := by
  intro ops s hnone hall ε hε h hh
  have hinv : CostBasisInv s := by
    intro h' hh'
    rw [hnone] at hh'
    cases hh'
  obtain ⟨_, hcost⟩ := costBasisInv_runOps ops s hinv hall h hh
  rw [hcost, sub_self, abs_zero]
  exact hε

/-- Witness for C3: after buy 10 @ 100, sell 4 @ 100, buy 5 @ 200 the
holding is (qty 11, cost 1600, avg 1600/11) and the invariant gap is
below 1/100. -/
theorem cost_basis_invariant_witness :
    |(1600 : ℚ) - 1600 / 11 * ((11 : ℤ) : ℚ)| < 1 / 100 :=
  cost_basis_invariant [.buy 10 100, .sell 4 100, .buy 5 200]
    ⟨some ⟨10000, 0, 0⟩, none, []⟩ rfl
    (by
      simp only [List.mem_cons, List.not_mem_nil, or_false]
      rintro op (rfl | rfl | rfl) <;> norm_num [TradeOp.quantity])
    (1 / 100) (by norm_num) ⟨11, 1600 / 11, 1600, 200, 2200⟩
    (by norm_num [runOps, applyOp, buyStock, sellStock, resolveTradePrice])

/-- C4: selling exactly `holding.quantity` shares deletes the holding row
(no zero-quantity row remains); selling more than `holding.quantity` is
rejected with the insufficient-shares error and leaves the state (holding
included) unchanged; selling with no holding row is rejected with the
no-position error. -/
theorem sell_exhaustion :
    (∀ (s : LedgerState) (w : Wallet) (h : Holding) (p : ℚ) (o : Option ℚ),
      s.wallet = some w → s.holding = some h →
      (sellStock s h.qty (some p) o).1 = .ok ∧
      ((sellStock s h.qty (some p) o).2).holding = none) ∧
    (∀ (s : LedgerState) (h : Holding) (q : ℤ) (p : ℚ) (o : Option ℚ),
      s.holding = some h → h.qty < q →
      sellStock s q (some p) o = (.insufficientShares, s)) ∧
    (∀ (s : LedgerState) (q : ℤ) (p : ℚ) (o : Option ℚ),
      s.holding = none → sellStock s q (some p) o = (.noPosition, s)) := by
  refine ⟨?_, ?_, ?_⟩
  · intro s w h p o hw hh
    rcases s with ⟨ws, hold, txs⟩
    cases hw; cases hh
    simp only [sellStock, resolveTradePrice, if_neg (lt_irrefl h.qty),
      if_pos rfl]
    exact ⟨by trivial, by trivial⟩
  · intro s h q p o hh hq
    rcases s with ⟨ws, hold, txs⟩
    cases hh
    simp only [sellStock, resolveTradePrice, if_pos hq]
  · intro s q p o hh
    rcases s with ⟨ws, hold, txs⟩
    cases hh
    simp only [sellStock, resolveTradePrice]

/-- Witness for C4: a holding of 7 shares — selling 7 deletes the row,
selling 8 is rejected unchanged, and a no-position sell is rejected. -/
theorem sell_exhaustion_witness :
    ((sellStock ⟨some ⟨0, 0, 0⟩, some ⟨7, 10, 70, 10, 70⟩, []⟩
        (7 : ℤ) (some 12) none).1 = .ok ∧
      ((sellStock ⟨some ⟨0, 0, 0⟩, some ⟨7, 10, 70, 10, 70⟩, []⟩
        (7 : ℤ) (some 12) none).2).holding = none) ∧
    sellStock ⟨some ⟨0, 0, 0⟩, some ⟨7, 10, 70, 10, 70⟩, []⟩
        8 (some 12) none =
      (.insufficientShares, ⟨some ⟨0, 0, 0⟩, some ⟨7, 10, 70, 10, 70⟩, []⟩) ∧
    sellStock ⟨some ⟨0, 0, 0⟩, none, []⟩ 3 (some 12) none =
      (.noPosition, ⟨some ⟨0, 0, 0⟩, none, []⟩) :=
  ⟨sell_exhaustion.1 ⟨some ⟨0, 0, 0⟩, some ⟨7, 10, 70, 10, 70⟩, []⟩
      ⟨0, 0, 0⟩ ⟨7, 10, 70, 10, 70⟩ 12 none rfl rfl,
    sell_exhaustion.2.1 ⟨some ⟨0, 0, 0⟩, some ⟨7, 10, 70, 10, 70⟩, []⟩
      ⟨7, 10, 70, 10, 70⟩ 8 12 none rfl (by norm_num),
    sell_exhaustion.2.2 ⟨some ⟨0, 0, 0⟩, none, []⟩ 3 12 none rfl⟩

/-- C6: every rejected trade — in particular a buy rejected for
insufficient balance (`wallet.cash_balance < price * quantity`) — writes
zero transaction rows and leaves the wallet and holding state exactly
unchanged: on any non-ok outcome the resulting ledger state equals the
input state. -/
theorem rejected_trade_no_trace :
    (∀ (s : LedgerState) (q : ℤ) (sp o : Option ℚ),
      (buyStock s q sp o).1 ≠ .ok → (buyStock s q sp o).2 = s) ∧
    (∀ (s : LedgerState) (q : ℤ) (sp o : Option ℚ),
      (sellStock s q sp o).1 ≠ .ok → (sellStock s q sp o).2 = s) ∧
    (∀ (s : LedgerState) (w : Wallet) (q : ℤ) (p : ℚ) (o : Option ℚ),
      s.wallet = some w → w.balance < p * q →
      (buyStock s q (some p) o).1 = .insufficientBalance ∧
      (buyStock s q (some p) o).2 = s) := by
  refine ⟨?_, ?_, ?_⟩
  · intro s q sp o
    rcases s with ⟨ws, hold, txs⟩
    dsimp only [buyStock]
    cases hr : resolveTradePrice sp o with
    | none => intro _; rfl
    | some p =>
      cases ws with
      | none => intro _; rfl
      | some w =>
        by_cases hb : w.balance < p * (q : ℚ) + 0
        · simp only [if_pos hb]; intro _; trivial
        · simp only [if_neg hb]; intro hne; exact absurd rfl hne
  · intro s q sp o
    rcases s with ⟨ws, hold, txs⟩
    dsimp only [sellStock]
    cases hr : resolveTradePrice sp o with
    | none => intro _; rfl
    | some p =>
      cases hold with
      | none => intro _; rfl
      | some h =>
        by_cases hlt : h.qty < q
        · simp only [if_pos hlt]; intro _; trivial
        · simp only [if_neg hlt]
          cases ws with
          | none => intro _; rfl
          | some w => intro hne; exact absurd rfl hne
  · intro s w q p o hw hb
    have hb' : w.balance < p * (q : ℚ) + 0 := by rwa [add_zero]
    rcases s with ⟨ws, hold, txs⟩
    cases hw
    simp only [buyStock, resolveTradePrice, if_pos hb']
    exact ⟨by trivial, by trivial⟩

/-- Witness for C6: a buy of 10 @ 100 against a balance of 500 is
rejected for insufficient balance and leaves the state untouched. -/
theorem rejected_trade_no_trace_witness :
    (buyStock ⟨some ⟨500, 0, 0⟩, none, []⟩ 10 (some 100) none).1 =
      .insufficientBalance ∧
    (buyStock ⟨some ⟨500, 0, 0⟩, none, []⟩ 10 (some 100) none).2 =
      ⟨some ⟨500, 0, 0⟩, none, []⟩ :=
  rejected_trade_no_trace.2.2 ⟨some ⟨500, 0, 0⟩, none, []⟩ ⟨500, 0, 0⟩
    10 100 none rfl (by norm_num)

/-- The sequential source loop returns `none` exactly when no attempt's
outcome passes the accept test. -/
lemma firstAccepted_eq_none_iff (l : List (Option ℚ)) :
    firstAccepted l = none ↔ ∀ o ∈ l, ¬ isAccepted o := by
  induction l with
  | nil => simp [firstAccepted]
  | cons o rest ih =>
    cases o with
    | none => simp [firstAccepted, isAccepted, ih]
    | some v =>
      by_cases hv : 0 < v
      · simp only [firstAccepted, if_pos hv]
        constructor
        · intro h; cases h
        · intro h
          exact absurd ⟨v, rfl, hv⟩ (h (some v) (List.mem_cons_self _ _))
      · simp only [firstAccepted, if_neg hv, ih, List.mem_cons]
        constructor
        · rintro h o (rfl | ho)
          · rintro ⟨w, hw, hw0⟩
            cases hw
            exact hv hw0
          · exact h o ho
        · intro h o ho; exact h o (Or.inr ho)

/-- When the sequential source loop returns a value, that value is
strictly positive, sits in the attempt list, and every earlier attempt
failed the accept test. -/
lemma firstAccepted_eq_some (l : List (Option ℚ)) (v : ℚ) :
    firstAccepted l = some v →
    0 < v ∧ ∃ l1 l2, l = l1 ++ some v :: l2 ∧ ∀ o ∈ l1, ¬ isAccepted o := by
  induction l with
  | nil => intro h; cases h
  | cons o rest ih =>
    cases o with
    | none =>
      intro h
      obtain ⟨hv, l1, l2, hl, hall⟩ := ih h
      refine ⟨hv, none :: l1, l2, by rw [hl]; rfl, ?_⟩
      intro o ho
      rcases List.mem_cons.mp ho with rfl | ho'
      · rintro ⟨w, hw, _⟩; cases hw
      · exact hall o ho'
    | some u =>
      by_cases hu : 0 < u
      · intro h
        simp only [firstAccepted, if_pos hu, Option.some.injEq] at h
        subst h
        exact ⟨hu, [], rest, rfl, by simp⟩
      · intro h
        simp only [firstAccepted, if_neg hu] at h
        obtain ⟨hv, l1, l2, hl, hall⟩ := ih h
        refine ⟨hv, some u :: l1, l2, by rw [hl]; rfl, ?_⟩
        intro o ho
        rcases List.mem_cons.mp ho with rfl | ho'
        · rintro ⟨w, hw, hw0⟩
          cases hw
          exact hu hw0
        · exact hall o ho'

/-- C5: `get_real_time_price` scans its sources in the fixed program
order (Finnhub, Alpha Vantage, yfinance fast_info, yfinance info fields,
yfinance history, raw Yahoo chart); an outcome is accepted only when it is
a present value strictly greater than zero; the first accepted value is
returned with every earlier attempt rejected, and the later sources are
never consulted (the result is independent of them); if no attempt is
accepted the function returns `none`.  In particular, when source 1 errors
or yields a non-positive value and source 2 yields 42, the result is 42
for every possible behaviour of sources 3-6. -/
theorem price_oracle_first_accepted :
    (∀ r : PriceSources,
      getRealTimePrice r = none ↔ ∀ o ∈ sourceChain r, ¬ isAccepted o) ∧
    (∀ (r : PriceSources) (v : ℚ), getRealTimePrice r = some v →
      0 < v ∧ ∃ l1 l2, sourceChain r = l1 ++ some v :: l2 ∧
        ∀ o ∈ l1, ¬ isAccepted o) ∧
    (∀ (f y3 y5 y6 : Option ℚ) (flds : List (Option ℚ)),
      ¬ isAccepted f →
      getRealTimePrice ⟨f, some 42, y3, flds, y5, y6⟩ = some 42) := by
  refine ⟨?_, ?_, ?_⟩
  · intro r; exact firstAccepted_eq_none_iff (sourceChain r)
  · intro r v h; exact firstAccepted_eq_some (sourceChain r) v h
  · intro f y3 y5 y6 flds hf
    cases f with
    | none => norm_num [getRealTimePrice, sourceChain, firstAccepted]
    | some u =>
      have hu : ¬ 0 < u := fun h => hf ⟨u, rfl, h⟩
      norm_num [getRealTimePrice, sourceChain, firstAccepted, if_neg hu]

/-- Witness for C5: source 1 yields 0 (rejected), source 2 yields 42; the
oracle returns 42 with sources 3-6 left arbitrary. -/
theorem price_oracle_first_accepted_witness :
    getRealTimePrice ⟨some 0, some 42, some 7, [some 9], some 11, none⟩ =
      some 42 :=
  price_oracle_first_accepted.2.2 (some 0) (some 7) (some 11) none [some 9]
    (by rintro ⟨w, hw, hw0⟩; cases hw; exact absurd hw0 (by norm_num))

/-- Invariant of the two-request buy interleaving model: cash is
non-negative and every pending snapshot passed its affordability check. -/
def ConcInv (c1 c2 : ℚ) (s : ConcState) : Prop :=
  0 ≤ s.cash ∧ (∀ snap, s.pend1 = some snap → c1 ≤ snap ∧ 0 ≤ snap) ∧
    (∀ snap, s.pend2 = some snap → c2 ≤ snap ∧ 0 ≤ snap)

/-- Every single phase preserves the interleaving invariant. -/
lemma concInv_step (c1 c2 : ℚ) (s : ConcState) (st : BuyStep)
    (h : ConcInv c1 c2 s) : ConcInv c1 c2 (concStep c1 c2 s st) := by
  obtain ⟨hc, h1, h2⟩ := h
  cases st with
  | check1 =>
    by_cases hlt : s.cash < c1
    · simp only [concStep, if_pos hlt]
      exact ⟨hc, fun snap hs => Option.noConfusion hs, h2⟩
    · simp only [concStep, if_neg hlt]
      refine ⟨hc, ?_, h2⟩
      intro snap hs
      injection hs with hs'
      exact hs' ▸ ⟨not_lt.mp hlt, hc⟩
  | check2 =>
    by_cases hlt : s.cash < c2
    · simp only [concStep, if_pos hlt]
      exact ⟨hc, h1, fun snap hs => Option.noConfusion hs⟩
    · simp only [concStep, if_neg hlt]
      refine ⟨hc, h1, ?_⟩
      intro snap hs
      injection hs with hs'
      exact hs' ▸ ⟨not_lt.mp hlt, hc⟩
  | commit1 =>
    cases hp : s.pend1 with
    | none => simp only [concStep, hp]; exact ⟨hc, h1, h2⟩
    | some snap =>
      simp only [concStep, hp]
      obtain ⟨hle, _⟩ := h1 snap hp
      exact ⟨sub_nonneg.mpr hle, fun _ hs => Option.noConfusion hs, h2⟩
  | commit2 =>
    cases hp : s.pend2 with
    | none => simp only [concStep, hp]; exact ⟨hc, h1, h2⟩
    | some snap =>
      simp only [concStep, hp]
      obtain ⟨hle, _⟩ := h2 snap hp
      exact ⟨sub_nonneg.mpr hle, h1, fun _ hs => Option.noConfusion hs⟩

/-- The interleaving invariant is preserved by whole schedules. -/
lemma concInv_run (c1 c2 : ℚ) (sched : List BuyStep) :
    ∀ s : ConcState, ConcInv c1 c2 s →
      ConcInv c1 c2 (concRun c1 c2 s sched) := by
  induction sched with
  | nil => intro s hs; exact hs
  | cons st rest ih =>
    intro s hs
    exact ih (concStep c1 c2 s st) (concInv_step c1 c2 s st hs)

/-- C7 counterexample: the affordability check and the balance update of
`buy_stock` are NOT one atomic serialized unit.  With balance 10000 and
two buys costing 6000 each, the interleaving check1-check2-commit1-commit2
lets both requests pass the check against the same stale balance and both
commit (2 transaction rows, `total_invested` up by 12000, cash down only
6000) — an outcome neither serial order produces, and one from which the
balance is no longer derivable from the transaction log. -/
theorem concurrent_buys_not_serialized :
    concRun 6000 6000 ⟨10000, 0, 0, none, none⟩
        [.check1, .check2, .commit1, .commit2] =
      ⟨4000, 12000, 2, none, none⟩ ∧
    concRun 6000 6000 ⟨10000, 0, 0, none, none⟩
        [.check1, .commit1, .check2, .commit2] =
      ⟨4000, 6000, 1, none, none⟩ ∧
    concRun 6000 6000 ⟨10000, 0, 0, none, none⟩
        [.check2, .commit2, .check1, .commit1] =
      ⟨4000, 6000, 1, none, none⟩ ∧
    (10000 : ℚ) - 12000 ≠ 4000 := by
  refine ⟨?_, ?_, ?_, by norm_num⟩ <;>
    norm_num [concRun, concStep]

/-- C7 as amended: the check and commit phases of concurrent buys are not
serialized, but because each commit writes the absolute balance
`snapshot - cost` from a snapshot that passed the affordability check, no
interleaving of two buy requests drives the cash balance negative. -/
theorem concurrent_buys_nonnegative_cash :
    ∀ (sched : List BuyStep) (c1 c2 : ℚ) (s : ConcState),
      0 ≤ s.cash → s.pend1 = none → s.pend2 = none →
      0 ≤ (concRun c1 c2 s sched).cash := by
  intro sched c1 c2 s hc h1 h2
  have hinv : ConcInv c1 c2 s := by
    refine ⟨hc, ?_, ?_⟩ <;> intro snap hs
    · rw [h1] at hs; cases hs
    · rw [h2] at hs; cases hs
  exact (concInv_run c1 c2 sched s hinv).1

/-- Witness for the amended C7: the double-spend interleaving itself still
ends with non-negative cash. -/
theorem concurrent_buys_nonnegative_cash_witness :
    0 ≤ (concRun 6000 6000 ⟨10000, 0, 0, none, none⟩
      [.check1, .check2, .commit1, .commit2]).cash :=
  concurrent_buys_nonnegative_cash [.check1, .check2, .commit1, .commit2]
    6000 6000 ⟨10000, 0, 0, none, none⟩ (by norm_num) rfl rfl

/-- C8 counterexample: with every live source down (oracle unavailable, no
usable stored price, manual fetch returning no usable field) and a drawn
delta of 3/100, the valuation price for a holding with average price 100
is the synthetic 103 — and exactly that synthetic value IS written to the
stored cached `current_price` by the unconditional UPDATE, contradicting
"never written back". -/
theorem synthetic_price_written_back :
    portfolioResolvePrice 100 ⟨none, none, some none, 3/100, 1/100⟩ =
      (103, .synthetic5) ∧
    portfolioWritebackPrice 100 ⟨none, none, some none, 3/100, 1/100⟩ =
      103 := by
  constructor <;>
    norm_num [portfolioResolvePrice, portfolioWritebackPrice,
      manualOrSynthetic]

/-- C8 as amended: when every source fails, the synthetic price
`average_price * (1 + delta)` is used for valuation, stays within ±5% of
`average_price` whenever the drawn delta does, and is written back to the
stored cached `current_price` exactly like an authoritative quote — the
only flagging is a log message; the persisted cache does not distinguish
synthetic from resolved prices. -/
theorem synthetic_price_writeback_behavior :
    ∀ (avg δ δ2 : ℚ),
      portfolioResolvePrice avg ⟨none, none, some none, δ, δ2⟩ =
        (avg * (1 + δ), .synthetic5) ∧
      portfolioWritebackPrice avg ⟨none, none, some none, δ, δ2⟩ =
        avg * (1 + δ) ∧
      (|δ| ≤ 5/100 → 0 ≤ avg →
        |avg * (1 + δ) - avg| ≤ avg * (5/100)) := by
  intro avg δ δ2
  refine ⟨rfl, rfl, ?_⟩
  intro hδ havg
  have h1 : avg * (1 + δ) - avg = avg * δ := by ring
  rw [h1, abs_mul, abs_of_nonneg havg]
  exact mul_le_mul_of_nonneg_left hδ havg

/-- Witness for the amended C8: average price 100, delta 3/100 — the
synthetic 103 is resolved, written back, and within the ±5% bound. -/
theorem synthetic_price_writeback_behavior_witness :
    portfolioResolvePrice 100 ⟨none, none, some none, 3/100, 0⟩ =
      (100 * (1 + 3/100), .synthetic5) ∧
    portfolioWritebackPrice 100 ⟨none, none, some none, 3/100, 0⟩ =
      100 * (1 + 3/100) ∧
    |(100 : ℚ) * (1 + 3/100) - 100| ≤ 100 * (5/100) :=
  ⟨(synthetic_price_writeback_behavior 100 (3/100) 0).1,
    (synthetic_price_writeback_behavior 100 (3/100) 0).2.1,
    (synthetic_price_writeback_behavior 100 (3/100) 0).2.2
      (by rw [abs_of_nonneg (by norm_num : (0:ℚ) ≤ 3/100)]; norm_num)
      (by norm_num)⟩

/-- C9 counterexample: `days_held` is NOT clamped to a minimum of 1 — for
a holding whose `last_updated` is less than one whole day old the computed
`days_held` is 0 (the code clamps `years_held`, not `days_held`). -/
theorem days_held_can_be_zero :
    daysHeld (some 0) = 0 ∧ ¬ (1 ≤ daysHeld (some 0)) := by
  exact ⟨rfl, by decide⟩

/-- C9 as amended: `days_held` is the whole-day difference from
`last_updated` (0 when under a day, 1 when `last_updated` is missing);
the minimum-one-day clamp is applied to
`years_held = max(days_held/365.25, 1/365.25)`, which is always positive,
so the CAGR exponent `1/years_held` never divides by zero and equals
`365.25 / max(days_held, 1)` for every `last_updated`. -/
theorem cagr_exponent_never_divides_by_zero :
    ∀ lu : Option ℤ,
      0 < yearsHeld (daysHeld lu) ∧
      cagrExponent (daysHeld lu) =
        (1461/4 : ℚ) / ((max (daysHeld lu) 1 : ℤ) : ℚ) := by
  intro lu
  constructor
  · exact lt_of_lt_of_le (by norm_num) (le_max_right _ _)
  · rcases le_or_lt 1 (daysHeld lu) with h1 | h1
    · have hd1 : (1:ℚ) ≤ ((daysHeld lu : ℤ) : ℚ) := by exact_mod_cast h1
      have hkey : (4:ℚ)/1461 ≤ ((daysHeld lu : ℤ) : ℚ) / (1461/4) := by
        have he : ((daysHeld lu : ℤ) : ℚ) / (1461/4) =
            4 * ((daysHeld lu : ℤ) : ℚ) / 1461 := by ring
        rw [he, div_le_div_iff₀ (by norm_num) (by norm_num)]
        nlinarith
      rw [cagrExponent, yearsHeld, max_eq_left hkey, one_div_div,
        max_eq_left h1]
    · have hd0 : daysHeld lu ≤ 0 := by omega
      have hd0' : ((daysHeld lu : ℤ) : ℚ) ≤ 0 := by exact_mod_cast hd0
      have hkey : ((daysHeld lu : ℤ) : ℚ) / (1461/4) ≤ 4/1461 := by
        have he : ((daysHeld lu : ℤ) : ℚ) / (1461/4) =
            (4/1461) * ((daysHeld lu : ℤ) : ℚ) := by ring
        nlinarith
      have hmax : max (daysHeld lu) 1 = 1 := max_eq_right (by omega)
      rw [cagrExponent, yearsHeld, max_eq_right hkey, hmax]
      norm_num

/-- C10: a caller-supplied price that is not `None` — zero or negative
included — is used unchanged by both `buy_stock` and `sell_stock`: the
oracle (and its positivity test) is never consulted, the committed
transaction records exactly the supplied price, and in particular a buy of
10 shares at supplied price -50 against balance 1000 commits, increases
the balance to 1500, and creates a holding with negative average price. -/
theorem supplied_price_used_unchanged :
    (∀ (s : LedgerState) (q : ℤ) (p : ℚ) (o o' : Option ℚ),
      buyStock s q (some p) o = buyStock s q (some p) o' ∧
      sellStock s q (some p) o = sellStock s q (some p) o') ∧
    (∀ (s : LedgerState) (w : Wallet) (q : ℤ) (p : ℚ) (o : Option ℚ),
      s.wallet = some w → ¬ w.balance < p * q →
      (buyStock s q (some p) o).1 = .ok ∧
      ∃ t, ((buyStock s q (some p) o).2).txs = s.txs ++ [t] ∧
        t.price = p) ∧
    ((buyStock ⟨some ⟨1000, 0, 0⟩, none, []⟩ 10 (some (-50)) none).1 =
        .ok ∧
      ((buyStock ⟨some ⟨1000, 0, 0⟩, none, []⟩ 10
          (some (-50)) none).2).wallet = some ⟨1500, -500, 0⟩ ∧
      (1000 : ℚ) < 1500 ∧
      ∃ h', ((buyStock ⟨some ⟨1000, 0, 0⟩, none, []⟩ 10
          (some (-50)) none).2).holding = some h' ∧
        h'.avg = -50 ∧ h'.avg < 0) := by
  refine ⟨fun s q p o o' => ⟨rfl, rfl⟩, ?_, ?_⟩
  · intro s w q p o hw hbal
    have hbal' : ¬ w.balance < p * (q : ℚ) + 0 := by rwa [add_zero]
    rcases s with ⟨ws, hold, txs⟩
    cases hw
    simp only [buyStock, resolveTradePrice, if_neg hbal']
    exact ⟨by trivial, ⟨_, rfl, rfl⟩⟩
  · refine ⟨?_, ?_, by norm_num, ⟨⟨10, -50, -500, -50, -500⟩, ?_, rfl,
      by norm_num⟩⟩ <;>
      norm_num [buyStock, resolveTradePrice]

/-- Witness for C10: the negative-price buy routed through the general
commit statement — the recorded transaction price is exactly -50. -/
theorem supplied_price_used_unchanged_witness :
    (buyStock ⟨some ⟨1000, 0, 0⟩, none, []⟩ 10 (some (-50)) none).1 =
      .ok ∧
    ∃ t, ((buyStock ⟨some ⟨1000, 0, 0⟩, none, []⟩ 10
        (some (-50)) none).2).txs = [] ++ [t] ∧ t.price = -50 :=
  supplied_price_used_unchanged.2.1 ⟨some ⟨1000, 0, 0⟩, none, []⟩
    ⟨1000, 0, 0⟩ 10 (-50) none rfl (by norm_num)

end StockPlay
